import Mathlib

/-!
Verification of the MondayFootball team-management application core: the
team randomization of `TeamSelector.randomizeTeams`, the manual move
operation `TeamSelector.movePlayerToTeam`, the statistics aggregation of
`Leaderboard.loadLeaderboard`, and the game-record construction of
`SaveGameDialog.handleSave`.

Modelling conventions: JavaScript arrays are `List`; JavaScript numbers
are `Int` where the program only ever holds integers (lengths, sizes,
scores) and exact rationals (`ℚ`) for the win-rate arithmetic, whose
values here are far below any magnitude at which double-precision
arithmetic deviates from exact arithmetic; nullable columns are `Option`.
-/

/-- Player shape used by the application (`usePlayers.Player`). -/
structure Player where
  id : String
  name : String
  isIn : Bool
  hasPaid : Bool
  deriving DecidableEq, Repr

/-- JavaScript `Array.prototype.slice(start, end)` on lists, with the
ECMAScript rules for negative and out-of-range indices: a negative index
counts from the end of the array, and both indices are clamped to
`[0, length]`; an empty slice results when the clamped start is not below
the clamped end. -/
def jsSlice (l : List α) (s e : Int) : List α :=
  let len : Int := l.length
  let start : Int := if s < 0 then max (len + s) 0 else min s len
  let stop : Int := if e < 0 then max (len + e) 0 else min e len
  (l.drop start.toNat).take (stop - start).toNat

/-- Slice sizes computed by `TeamSelector.randomizeTeams` (TeamSelector.tsx
lines 74-91).  `total` is the number of available players and `target` the
parsed target team size.  The guard `teamSizeNum <= totalPlayers / 2` is
exact (real) division in JavaScript, hence the `ℚ` comparison here, while
`Math.floor(totalPlayers / 2)` is integer division of the nonnegative
length. -/
def teamSizes (total target : Int) : Int × Int :=
  let sizeA := total / 2
  let sizeB := total - sizeA
  if (target : ℚ) ≤ (total : ℚ) / 2 then
    let sizeA2 := min target total
    let sizeB2 := min target (total - sizeA2)
    if sizeB2 < target - 1 ∧ total - target > 0 then
      (target, total - target)
    else
      (sizeA2, sizeB2)
  else
    (sizeA, sizeB)

/-- Team assignment of `randomizeTeams`: the shuffled player array is cut
with `shuffled.slice(0, teamASize)` and `shuffled.slice(teamASize,
teamASize + teamBSize)`.  The list argument is the post-shuffle order; the
shuffle itself is a permutation of the available players, so quantifying
over all input lists covers every shuffle outcome. -/
def assignTeams (shuffled : List Player) (target : Int) : List Player × List Player :=
  let sizes := teamSizes shuffled.length target
  (jsSlice shuffled 0 sizes.1, jsSlice shuffled sizes.1 (sizes.1 + sizes.2))

/-- The two team slots of the selector. -/
inductive Side
  | A
  | B
  deriving DecidableEq, Repr

/-- Manual move of `TeamSelector.movePlayerToTeam`: the player is filtered
out of both sides by id and then pushed onto the end of the target side. -/
def movePlayerToTeam (teams : List Player × List Player) (player : Player)
    (target : Side) : List Player × List Player :=
  let a := teams.1.filter fun p => p.id != player.id
  let b := teams.2.filter fun p => p.id != player.id
  match target with
  | Side.A => (a ++ [player], b)
  | Side.B => (a, b ++ [player])

/-- Winner designator stored by `SaveGameDialog` when the score is marked
unknown; the dialog state only ever holds these three values. -/
inductive Winner
  | green
  | orange
  | draw
  deriving DecidableEq, Repr

/-- Row shape selected by `Leaderboard.loadLeaderboard` from `game_log`. -/
structure GameLog where
  green_team_players : List String
  orange_team_players : List String
  green_team_score : Option Int
  orange_team_score : Option Int
  winner : Option Winner
  deriving DecidableEq, Repr

/-- Outcome determination of `loadLeaderboard` (part_000 lines 227-247),
as the triple `(greenWon, orangeWon, isDraw)`: with both scores present
the scores decide; otherwise a present winner designator decides;
otherwise the record is skipped (`none`). -/
def outcome (g : GameLog) : Option (Bool × Bool × Bool) :=
  match g.green_team_score, g.orange_team_score with
  | some gs, some os => some (decide (gs > os), decide (os > gs), decide (gs = os))
  | _, _ =>
    match g.winner with
    | some w =>
      some (decide (w = Winner.green), decide (w = Winner.orange), decide (w = Winner.draw))
    | none => none

/-- Per-player accumulator entry of `loadLeaderboard` (`playerWins[name]`). -/
structure PlayerRec where
  wins : Nat
  gamesPlayed : Nat
  deriving DecidableEq, Repr

/-- One `playerWins[player]` update of `loadLeaderboard`: create the entry
at first sight, then `gamesPlayed++` and, when the side won, `wins++`.
The object is modelled as an association list in key-insertion order,
matching the insertion-order enumeration of JavaScript object string
keys. -/
def bumpPlayer : List (String × PlayerRec) → String → Bool → List (String × PlayerRec)
  | [], name, won => [(name, ⟨if won then 1 else 0, 1⟩)]
  | (n, r) :: rest, name, won =>
    if n = name then
      (n, ⟨r.wins + (if won then 1 else 0), r.gamesPlayed + 1⟩) :: rest
    else
      (n, r) :: bumpPlayer rest name won

/-- Mutable state of the aggregation loop in `loadLeaderboard`. -/
structure AggState where
  playerWins : List (String × PlayerRec)
  greenWins : Nat
  orangeWins : Nat
  draws : Nat
  totalGames : Nat
  deriving DecidableEq, Repr

/-- Initial aggregation state. -/
def initAggState : AggState := ⟨[], 0, 0, 0, 0⟩

/-- Processing of one game record in the `forEach` of `loadLeaderboard`:
a skipped record leaves the state unchanged; a counted record bumps
`totalGames`, the matching team counter, and every roster listing of both
sides. -/
def processGame (s : AggState) (g : GameLog) : AggState :=
  match outcome g with
  | none => s
  | some (gw, ow, dr) =>
    let pw1 := g.green_team_players.foldl (fun m p => bumpPlayer m p gw) s.playerWins
    let pw2 := g.orange_team_players.foldl (fun m p => bumpPlayer m p ow) pw1
    { playerWins := pw2
      greenWins := s.greenWins + (if gw then 1 else 0)
      orangeWins := s.orangeWins + (if ow then 1 else 0)
      draws := s.draws + (if dr then 1 else 0)
      totalGames := s.totalGames + 1 }

/-- Aggregation over the whole game history. -/
def aggregate (games : List GameLog) : AggState :=
  games.foldl processGame initAggState

/-- Numeric value of a digit string. -/
def digitsVal (cs : List Char) : Nat :=
  cs.foldl (fun n c => n * 10 + (c.toNat - 48)) 0

/-- Canonical-array-index test from ECMAScript property enumeration: a
string key that is the canonical decimal form of an integer below
2^32 - 1 is enumerated as an array index. -/
def isArrayIndexName (s : String) : Bool :=
  let cs := s.data
  (decide (cs ≠ []) && cs.all Char.isDigit)
    && (decide (cs = ['0']) || decide (cs.head? ≠ some '0'))
    && decide (digitsVal cs < 4294967295)

/-- Enumeration order of `Object.entries` over the accumulator object:
array-index-like keys first, in ascending numeric order, then the
remaining keys in insertion order. -/
def entriesJS (m : List (String × PlayerRec)) : List (String × PlayerRec) :=
  (m.filter fun e => isArrayIndexName e.1).mergeSort
      (fun a b => decide (digitsVal a.1.data ≤ digitsVal b.1.data))
    ++ m.filter fun e => !isArrayIndexName e.1

/-- Leaderboard entry shape (`PlayerStats` of part_000). -/
structure PlayerStats where
  name : String
  wins : Nat
  gamesPlayed : Nat
  winRate : ℚ
  deriving DecidableEq, Repr

/-- Mapping step of `loadLeaderboard`:
`winRate = gamesPlayed > 0 ? (wins / gamesPlayed) * 100 : 0`. -/
def toStats (e : String × PlayerRec) : PlayerStats :=
  { name := e.1
    wins := e.2.wins
    gamesPlayed := e.2.gamesPlayed
    winRate :=
      if 0 < e.2.gamesPlayed then ((e.2.wins : ℚ) / (e.2.gamesPlayed : ℚ)) * 100 else 0 }

/-- Comparator of the leaderboard sort, as the relation "a sorts no later
than b": `statsLE a b` holds exactly when the JavaScript comparator
returns a value ≤ 0 on `(a, b)` — wins descending, then winRate
descending, then gamesPlayed descending. -/
def statsLE (a b : PlayerStats) : Bool :=
  if b.wins ≠ a.wins then decide (b.wins < a.wins)
  else if b.winRate ≠ a.winRate then decide (b.winRate < a.winRate)
  else decide (b.gamesPlayed ≤ a.gamesPlayed)

/-- The pre-sort leaderboard array, `Object.entries(playerWins).map(...)`. -/
def baseStats (games : List GameLog) : List PlayerStats :=
  (entriesJS (aggregate games).playerWins).map toStats

/-- The sorted leaderboard.  `Array.prototype.sort` is a stable sort by
the consistent comparator above, which is exactly `List.mergeSort` with
`statsLE`. -/
def leaderboard (games : List GameLog) : List PlayerStats :=
  (baseStats games).mergeSort statsLE

/-- Team-level counters published by `loadLeaderboard`. -/
structure TeamStats where
  greenWins : Nat
  orangeWins : Nat
  draws : Nat
  totalGames : Nat
  deriving DecidableEq, Repr

/-- The team statistics output of `loadLeaderboard`. -/
def teamStatsOf (games : List GameLog) : TeamStats :=
  let s := aggregate games
  ⟨s.greenWins, s.orangeWins, s.draws, s.totalGames⟩

/-- Full row inserted into `game_log` by `SaveGameDialog.handleSave`. -/
structure GameRecord where
  week_date : String
  green_team_players : List String
  orange_team_players : List String
  green_team_score : Option Int
  orange_team_score : Option Int
  attending_players : List String
  paid_players : List String
  payment_type : String
  winner : Option Winner
  deriving DecidableEq, Repr

/-- Projection of a stored row onto the columns selected by
`loadLeaderboard`. -/
def toGameLog (r : GameRecord) : GameLog :=
  ⟨r.green_team_players, r.orange_team_players, r.green_team_score,
    r.orange_team_score, r.winner⟩

/-- Record construction of `SaveGameDialog.handleSave` (SaveGameDialog.tsx
lines 46-89).  `parse` abstracts JavaScript `parseInt` on the score input
strings; the two guards reproduce the early returns (score fields empty
while the score is not marked unknown, or an empty team), under the
JavaScript truthiness of strings (falsy exactly when empty) and arrays of
players.  `winner` is stored only when the score is unknown. -/
def handleSave (parse : String → Int) (greenTeam orangeTeam attending : List Player)
    (weekDate : String) (greenScore orangeScore : String) (paymentType : String)
    (scoreUnknown : Bool) (winner : Winner) : Option GameRecord :=
  if !scoreUnknown && (greenScore == "" || orangeScore == "") then
    none
  else if greenTeam.length == 0 || orangeTeam.length == 0 then
    none
  else
    some
      { week_date := weekDate
        green_team_players := greenTeam.map Player.name
        orange_team_players := orangeTeam.map Player.name
        green_team_score := if scoreUnknown then none else some (parse greenScore)
        orange_team_score := if scoreUnknown then none else some (parse orangeScore)
        attending_players := attending.map Player.name
        paid_players := (attending.filter Player.hasPaid).map Player.name
        payment_type := paymentType
        winner := if scoreUnknown then some winner else none }

/-- Slice-size policy exactly as claim C1 states it: default balanced
split, preferred size when the target fits in half the pool, and the
rebalance override.  The claim's `total / 2` comparisons are stated on
integers (for an integer target, `t ≤ total/2` in the reals is `t ≤
⌊total/2⌋`). -/
def sizesSpec (total target : Int) : Int × Int :=
  let sizeA := total / 2
  let sizeB := total - sizeA
  if target ≤ total / 2 then
    let sizeA2 := min target total
    let sizeB2 := min target (total - sizeA2)
    if sizeB2 < target - 1 ∧ total - target > 0 then
      (target, total - target)
    else
      (sizeA2, sizeB2)
  else
    (sizeA, sizeB)

/-- Output shape claimed by C1: the two sides are the first `sizeA`
elements and the next `sizeB` elements of the shuffled list. -/
def assignTeamsSpec (l : List Player) (target : Int) : List Player × List Player :=
  let sizes := sizesSpec l.length target
  (l.take sizes.1.toNat, (l.drop sizes.1.toNat).take sizes.2.toNat)

/-- Lookup in the association list modelling `playerWins`. -/
def findStats : List (String × PlayerRec) → String → Option PlayerRec
  | [], _ => none
  | (n, r) :: rest, x => if n = x then some r else findStats rest x

/-- Wins recorded for a name (0 when the name has no entry). -/
def statW (m : List (String × PlayerRec)) (x : String) : Nat :=
  match findStats m x with
  | some r => r.wins
  | none => 0

/-- Games recorded for a name (0 when the name has no entry). -/
def statG (m : List (String × PlayerRec)) (x : String) : Nat :=
  match findStats m x with
  | some r => r.gamesPlayed
  | none => 0

/-- Number of roster listings of a name on a single record (both sides). -/
def rosterHits (g : GameLog) (x : String) : Nat :=
  g.green_team_players.count x + g.orange_team_players.count x

/-- Contribution of one record to a name's gamesPlayed: its roster
listings when the record is counted, 0 when it is skipped. -/
def gpContribution (g : GameLog) (x : String) : Nat :=
  match outcome g with
  | none => 0
  | some _ => rosterHits g x

/-- Contribution of one record to a name's wins: its listings on the
winning roster when the record is counted, 0 otherwise. -/
def winContribution (g : GameLog) (x : String) : Nat :=
  match outcome g with
  | none => 0
  | some (gw, ow, _) =>
    (if gw then g.green_team_players.count x else 0) +
      (if ow then g.orange_team_players.count x else 0)

/-- Whether one record makes a name appear in the accumulator. -/
def memContribution (g : GameLog) (x : String) : Bool :=
  match outcome g with
  | none => false
  | some _ => decide (x ∈ g.green_team_players) || decide (x ∈ g.orange_team_players)

/-- Total roster listings of a name over the counted records. -/
def gamesPlayedSpec (games : List GameLog) (x : String) : Nat :=
  (games.map fun g => gpContribution g x).sum

/-- Total listings of a name on winning rosters over the counted records. -/
def winsSpec (games : List GameLog) (x : String) : Nat :=
  (games.map fun g => winContribution g x).sum

/-- Wins counted the way claim C3 literally states them: the number of
counted records in which the name is listed on the winning side. -/
def winsByRecord (games : List GameLog) (x : String) : Nat :=
  games.countP fun g =>
    match outcome g with
    | some (gw, ow, _) =>
      (gw && g.green_team_players.contains x) || (ow && g.orange_team_players.contains x)
    | none => false

/-- Whether a record is counted. -/
def countFlag (g : GameLog) : Bool :=
  (outcome g).isSome

/-- Whether a counted record's outcome is a green win. -/
def greenFlag (g : GameLog) : Bool :=
  match outcome g with
  | some (gw, _, _) => gw
  | none => false

/-- Whether a counted record's outcome is an orange win. -/
def orangeFlag (g : GameLog) : Bool :=
  match outcome g with
  | some (_, ow, _) => ow
  | none => false

/-- Whether a counted record's outcome is a draw. -/
def drawFlag (g : GameLog) : Bool :=
  match outcome g with
  | some (_, _, dr) => dr
  | none => false

/-- Number of counted records. -/
def countedGames (games : List GameLog) : Nat :=
  games.countP countFlag

/-- Number of counted records whose outcome is a green win. -/
def greenWonGames (games : List GameLog) : Nat :=
  games.countP greenFlag

/-- Number of counted records whose outcome is an orange win. -/
def orangeWonGames (games : List GameLog) : Nat :=
  games.countP orangeFlag

/-- Number of counted records whose outcome is a draw. -/
def drawGames (games : List GameLog) : Nat :=
  games.countP drawFlag

/-- Ranking relation claimed by C4: descending by wins, then by winRate,
then by gamesPlayed. -/
def rankLE (a b : PlayerStats) : Prop :=
  b.wins < a.wins ∨
    (b.wins = a.wins ∧
      (b.winRate < a.winRate ∨ (b.winRate = a.winRate ∧ b.gamesPlayed ≤ a.gamesPlayed)))

/-- Two leaderboard entries tying on all three ranking keys. -/
def tiedStats (a b : PlayerStats) : Prop :=
  a.wins = b.wins ∧ a.winRate = b.winRate ∧ a.gamesPlayed = b.gamesPlayed

/-- Boolean test for a fixed ranking-key triple. -/
def sameKeys (w : Nat) (r : ℚ) (gp : Nat) (s : PlayerStats) : Bool :=
  decide (s.wins = w) && decide (s.winRate = r) && decide (s.gamesPlayed = gp)

/-- Append a name if it has not been seen yet. -/
def addName (ns : List String) (n : String) : List String :=
  if n ∈ ns then ns else ns ++ [n]

/-- First-encounter order of names over the counted records, scanning each
counted record's green roster then its orange roster, as claim C4
describes the encounter order. -/
def encounterOrder (games : List GameLog) : List String :=
  games.foldl
    (fun ns g =>
      match outcome g with
      | none => ns
      | some _ => (g.green_team_players ++ g.orange_team_players).foldl addName ns)
    []

/-- Stability property claimed by C4, literally: any two entries that tie
on all three keys appear in the leaderboard in their first-encounter
order. -/
def encounterOrderClaim (games : List GameLog) : Prop :=
  List.Pairwise
    (fun a b => tiedStats a b →
      (encounterOrder games).indexOf a.name < (encounterOrder games).indexOf b.name)
    (leaderboard games)

/-- Invariant of every stored accumulator entry. -/
def goodRec (r : PlayerRec) : Prop :=
  1 ≤ r.gamesPlayed ∧ r.wins ≤ r.gamesPlayed

/-- Four players with pairwise distinct ids (counterexample input of C1). -/
def playersC1 : List Player :=
  [⟨"a1", "Ada", true, false⟩, ⟨"a2", "Bea", true, false⟩,
    ⟨"a3", "Cal", true, false⟩, ⟨"a4", "Dee", true, false⟩]

/-- Three players with pairwise distinct ids (witness input of C1). -/
def playersC1W : List Player :=
  [⟨"w1", "Wes", true, false⟩, ⟨"w2", "Xan", true, false⟩, ⟨"w3", "Yui", true, false⟩]

/-- Three players with pairwise distinct ids (witness input of C6). -/
def playersC6 : List Player :=
  [⟨"b1", "Eli", true, false⟩, ⟨"b2", "Fox", true, false⟩, ⟨"b3", "Gus", true, true⟩]

/-- Four players with pairwise distinct ids (counterexample input of C7). -/
def playersC7 : List Player :=
  [⟨"c1", "Hal", true, false⟩, ⟨"c2", "Ivy", true, false⟩,
    ⟨"c3", "Jon", true, false⟩, ⟨"c4", "Kim", true, false⟩]

/-- Score-decided record for the C2 witness. -/
def gameC2 : GameLog := ⟨["Eve"], ["Fay"], some 3, some 1, none⟩

/-- Record with a duplicated roster listing (counterexample input of C3). -/
def gameC3 : GameLog := ⟨["Alice", "Alice"], ["Bob"], some 1, some 0, none⟩

/-- Record whose player names are canonical array-index strings
(counterexample input of C4). -/
def gameC4 : GameLog := ⟨["2", "1"], [], some 1, some 0, none⟩

/-- Two-player decided record (counterexample input of C5). -/
def gameC5 : GameLog := ⟨["Ann"], ["Ben"], some 1, some 0, none⟩

/-- One-player decided record (witness input of C5). -/
def gameC5W : GameLog := ⟨["Gil"], [], some 1, some 0, none⟩

/-- One-player decided record (witness input of C9). -/
def gameC9 : GameLog := ⟨["Hec"], [], some 0, some 2, none⟩

/-- Green-team player of the C10 witness. -/
def playerC10G : Player := ⟨"g1", "Gia", true, true⟩

/-- Orange-team player of the C10 witness. -/
def playerC10O : Player := ⟨"o1", "Oli", true, false⟩

theorem jsSlice_nil (s e : Int) : jsSlice ([] : List α) s e = [] := by
  simp [jsSlice]

theorem jsSlice_zero_nonneg (l : List α) (a : Int) (ha : 0 ≤ a) :
    jsSlice l 0 a = l.take a.toNat := by
  have hlen : (0:Int) ≤ (l.length : Int) := Int.natCast_nonneg _
  simp only [jsSlice, if_neg (lt_irrefl (0:Int)), if_neg (not_lt.mpr ha)]
  rw [min_eq_left hlen]
  simp only [Int.toNat_zero, List.drop_zero, Int.sub_zero]
  exact List.take_eq_take.mpr (by omega)

theorem jsSlice_start_nonneg (l : List α) (a b : Int) (ha : 0 ≤ a) (hb : 0 ≤ b) :
    jsSlice l a (a + b) = (l.drop a.toNat).take b.toNat := by
  simp only [jsSlice, if_neg (not_lt.mpr ha), if_neg (by omega : ¬a + b < 0)]
  rcases le_or_lt a (l.length : Int) with h | h
  · rw [min_eq_left h]
    apply List.take_eq_take.mpr
    have hd : (l.drop a.toNat).length = l.length - a.toNat := List.length_drop _ _
    omega
  · rw [min_eq_right h.le, min_eq_right (by omega : (l.length : Int) ≤ a + b), sub_self]
    rw [List.drop_eq_nil_of_le (by omega : l.length ≤ a.toNat)]
    simp

theorem jsSlice_zero_append (l : List α) (a e : Int) :
    ∃ m, jsSlice l 0 a ++ jsSlice l a e = l.take m := by
  have hlen : (0:Int) ≤ (l.length : Int) := Int.natCast_nonneg _
  simp only [jsSlice, if_neg (lt_irrefl (0:Int))]
  rw [min_eq_left hlen]
  simp only [Int.toNat_zero, List.drop_zero, Int.sub_zero]
  refine ⟨(if a < 0 then max ((l.length : Int) + a) 0 else min a (l.length : Int)).toNat +
      ((if e < 0 then max ((l.length : Int) + e) 0 else min e (l.length : Int)) -
        (if a < 0 then max ((l.length : Int) + a) 0 else min a (l.length : Int))).toNat, ?_⟩
  exact (List.take_add l _ _).symm

theorem teamSizes_cond_iff (total target : Int) :
    ((target : ℚ) ≤ (total : ℚ) / 2) ↔ target ≤ total / 2 := by
  rw [le_div_iff₀ (by norm_num : (0:ℚ) < 2)]
  rw [show ((2:ℚ)) = ((2 : Int) : ℚ) by norm_num, ← Int.cast_mul, Int.cast_le]
  omega

theorem teamSizes_eq_sizesSpec (total target : Int) :
    teamSizes total target = sizesSpec total target := by
  simp only [teamSizes, sizesSpec, teamSizes_cond_iff]

theorem sizesSpec_nonneg (total target : Int) (htot : 0 ≤ total) (ht : 0 ≤ target) :
    0 ≤ (sizesSpec total target).1 ∧ 0 ≤ (sizesSpec total target).2 := by
  simp only [sizesSpec]
  split_ifs with h1 h2 <;> refine ⟨?_, ?_⟩ <;> simp_all <;> omega

/-- C1 (amended): for every shuffled eligible-player list and every
nonnegative integer targetTeamSize, `assignTeams` computes the two slice
sizes exactly by the stated policy and the output sides are the first
`sizeA` and next `sizeB` elements of the shuffled list.  (For strictly
negative targets the stated reading fails, because JavaScript `slice`
treats a negative bound as counting from the end of the array; see the
counterexample.) -/
theorem assignTeams_slice_policy (l : List Player) (t : Int) (ht : 0 ≤ t) :
    assignTeams l t = assignTeamsSpec l t := by
  have htot : (0:Int) ≤ (l.length : Int) := Int.natCast_nonneg _
  obtain ⟨hA, hB⟩ := sizesSpec_nonneg (l.length : Int) t htot ht
  simp only [assignTeams, assignTeamsSpec, teamSizes_eq_sizesSpec]
  rw [jsSlice_zero_nonneg _ _ hA, jsSlice_start_nonneg _ _ _ hA hB]

/-- Witness for the amended C1 at three players and target size 7. -/
theorem assignTeams_slice_policy_witness :
    (0:Int) ≤ 7 ∧ assignTeams playersC1W 7 = assignTeamsSpec playersC1W 7 :=
  ⟨by decide, assignTeams_slice_policy playersC1W 7 (by decide)⟩

/-- Counterexample to C1 as stated: with four players and
targetTeamSize = -2 the code returns the first two shuffled players on
side A (negative slice bounds count from the end), while the stated
policy reading puts no player on either side. -/
theorem assignTeams_slice_policy_cex :
    assignTeams playersC1 (-2) ≠ assignTeamsSpec playersC1 (-2) := by
  simp only [assignTeams, teamSizes_eq_sizesSpec]
  decide

/-- C6: on a shuffled list of players with pairwise distinct ids, the two
sides returned by `assignTeams` share no id, repeat no id internally, have
lengths summing to at most the pool size, and contain only members of the
pool. -/
theorem assignTeams_partition (l : List Player) (t : Int)
    (h : (l.map Player.id).Nodup) :
    (∀ p ∈ (assignTeams l t).1, ∀ q ∈ (assignTeams l t).2, p.id ≠ q.id) ∧
    ((assignTeams l t).1.map Player.id).Nodup ∧
    ((assignTeams l t).2.map Player.id).Nodup ∧
    (assignTeams l t).1.length + (assignTeams l t).2.length ≤ l.length ∧
    ∀ p, p ∈ (assignTeams l t).1 ∨ p ∈ (assignTeams l t).2 → p ∈ l := by
  obtain ⟨m, hm⟩ : ∃ m, (assignTeams l t).1 ++ (assignTeams l t).2 = l.take m := by
    simp only [assignTeams]
    exact jsSlice_zero_append l _ _
  have hsub : ((assignTeams l t).1 ++ (assignTeams l t).2).Sublist l := by
    rw [hm]; exact List.take_sublist m l
  have hnd : (((assignTeams l t).1 ++ (assignTeams l t).2).map Player.id).Nodup :=
    List.Nodup.sublist (List.Sublist.map Player.id hsub) h
  rw [List.map_append, List.nodup_append] at hnd
  obtain ⟨h1, h2, hdisj⟩ := hnd
  refine ⟨?_, h1, h2, ?_, ?_⟩
  · intro p hp q hq hpq
    exact hdisj (List.mem_map_of_mem _ hp) (hpq ▸ List.mem_map_of_mem _ hq)
  · have hle := hsub.length_le
    rwa [List.length_append] at hle
  · intro p hp
    exact hsub.subset (List.mem_append.mpr hp)

/-- Witness for C6 at three players with distinct ids and target 2. -/
theorem assignTeams_partition_witness :
    (playersC6.map Player.id).Nodup ∧
      (assignTeams playersC6 2).1.length + (assignTeams playersC6 2).2.length ≤
        playersC6.length :=
  ⟨by decide, (assignTeams_partition playersC6 2 (by decide)).2.2.2.1⟩

theorem teamSizes_zero (total : Int) (htot : 0 ≤ total) :
    teamSizes total 0 = (0, 0) := by
  rw [teamSizes_eq_sizesSpec]
  simp only [sizesSpec]
  rw [if_pos (by omega : (0:Int) ≤ total / 2), if_neg (by omega)]
  simp [min_eq_left htot]

theorem teamSizes_neg (total t : Int) (htot : 0 ≤ total) (ht : t < 0) :
    teamSizes total t = (t, t) := by
  rw [teamSizes_eq_sizesSpec]
  simp only [sizesSpec]
  rw [if_pos (by omega : t ≤ total / 2), if_neg (by omega)]
  rw [min_eq_left (by omega : t ≤ total), min_eq_left (by omega : t ≤ total - t)]

theorem jsSlice_zero_neg (l : List α) (t : Int) (ht : t < 0) :
    jsSlice l 0 t = l.take ((l.length : Int) + t).toNat := by
  have hlen : (0:Int) ≤ (l.length : Int) := Int.natCast_nonneg _
  simp only [jsSlice, if_neg (lt_irrefl (0:Int)), if_pos ht]
  rw [min_eq_left hlen]
  simp only [Int.toNat_zero, List.drop_zero, Int.sub_zero]
  exact List.take_eq_take.mpr (by omega)

theorem jsSlice_neg_neg (l : List α) (t : Int) (ht : t < 0) :
    jsSlice l t (t + t) = [] := by
  simp only [jsSlice, if_pos ht, if_pos (by omega : t + t < 0)]
  rw [show (max ((l.length : Int) + (t + t)) 0 -
      max ((l.length : Int) + t) 0).toNat = 0 by omega]
  simp

/-- C7 (amended): `assignTeams` does not fail on degenerate inputs.  It
returns two empty sequences when the eligible-player list is empty (for
every targetTeamSize) and when targetTeamSize = 0.  For a strictly
negative targetTeamSize, side B is always empty and side A is the first
`max(length + targetTeamSize, 0)` shuffled players (the negative slice
bound counts from the end of the array) — empty when the pool holds at
most `-targetTeamSize` players, nonempty otherwise, see the
counterexample. -/
theorem assignTeams_degenerate (l : List Player) (t : Int) :
    ((l = [] ∨ t = 0) → assignTeams l t = ([], [])) ∧
    (t < 0 → assignTeams l t = (l.take ((l.length : Int) + t).toNat, [])) := by
  constructor
  · intro h
    rcases h with h | h
    · subst h
      simp only [assignTeams, jsSlice_nil]
    · subst h
      have htot : (0:Int) ≤ (l.length : Int) := Int.natCast_nonneg _
      simp only [assignTeams, teamSizes_zero _ htot]
      rw [jsSlice_zero_nonneg _ _ le_rfl, jsSlice_start_nonneg _ _ _ le_rfl le_rfl]
      simp
  · intro ht
    have htot : (0:Int) ≤ (l.length : Int) := Int.natCast_nonneg _
    simp only [assignTeams, teamSizes_neg (l.length : Int) t htot ht]
    rw [jsSlice_zero_neg _ _ ht, jsSlice_neg_neg _ _ ht]

/-- Witness for the amended C7: the empty pool with target 7 gives two
empty sequences, and target -2 over the four-player pool gives the
two-player prefix on side A and an empty side B. -/
theorem assignTeams_degenerate_witness :
    (([] : List Player) = [] ∨ (7:Int) = 0) ∧ assignTeams [] 7 = ([], []) ∧
      (-2 : Int) < 0 ∧ assignTeams playersC7 (-2) =
        (playersC7.take (((playersC7.length : Int) + (-2)).toNat), []) :=
  ⟨Or.inl rfl, (assignTeams_degenerate [] 7).1 (Or.inl rfl), by decide,
    (assignTeams_degenerate playersC7 (-2)).2 (by decide)⟩

/-- Counterexample to C7 as stated: targetTeamSize = -2 is a degenerate
input (≤ 0), yet on a four-player pool the code returns a two-player side
A rather than two empty sequences. -/
theorem assignTeams_degenerate_cex :
    assignTeams playersC7 (-2) ≠ ([], []) := by
  simp only [assignTeams, teamSizes_eq_sizesSpec]
  decide

/-- C8: `movePlayerToTeam` is idempotent — moving the same player to the
same target side twice yields exactly the assignment of moving it once. -/
theorem movePlayer_idempotent (teams : List Player × List Player) (player : Player)
    (target : Side) :
    movePlayerToTeam (movePlayerToTeam teams player target) player target =
      movePlayerToTeam teams player target := by
  cases target <;>
    simp [movePlayerToTeam, List.filter_append, List.filter_filter]

/-- C2: the aggregator's outcome precedence — with both scores present the
higher score wins (equal scores draw) and the record is counted; otherwise
a present winner designator gives the outcome and the record is counted;
otherwise the record is skipped and changes no statistic at all. -/
theorem outcome_precedence (g : GameLog) (s : AggState) :
    (∀ gs os, g.green_team_score = some gs → g.orange_team_score = some os →
      outcome g = some (decide (gs > os), decide (os > gs), decide (gs = os)) ∧
        (processGame s g).totalGames = s.totalGames + 1) ∧
    (∀ w, (g.green_team_score = none ∨ g.orange_team_score = none) → g.winner = some w →
      outcome g =
        some (decide (w = Winner.green), decide (w = Winner.orange), decide (w = Winner.draw)) ∧
        (processGame s g).totalGames = s.totalGames + 1) ∧
    ((g.green_team_score = none ∨ g.orange_team_score = none) → g.winner = none →
      processGame s g = s) := by
  refine ⟨?_, ?_, ?_⟩
  · intro gs os hg ho
    have hout : outcome g = some (decide (gs > os), decide (os > gs), decide (gs = os)) := by
      simp [outcome, hg, ho]
    exact ⟨hout, by simp [processGame, hout]⟩
  · intro w hor hw
    have hout : outcome g =
        some (decide (w = Winner.green), decide (w = Winner.orange), decide (w = Winner.draw)) := by
      rcases hor with h | h
      · rcases ho2 : g.orange_team_score with _ | os <;> simp [outcome, h, hw, ho2]
      · rcases hg2 : g.green_team_score with _ | gs <;> simp [outcome, h, hw, hg2]
    exact ⟨hout, by simp [processGame, hout]⟩
  · intro hor hw
    have hout : outcome g = none := by
      rcases hor with h | h
      · rcases ho2 : g.orange_team_score with _ | os <;> simp [outcome, h, hw, ho2]
      · rcases hg2 : g.green_team_score with _ | gs <;> simp [outcome, h, hw, hg2]
    simp [processGame, hout]

/-- Witness for C2 at a 3–1 record. -/
theorem outcome_precedence_witness :
    gameC2.green_team_score = some 3 ∧ gameC2.orange_team_score = some 1 ∧
      outcome gameC2 = some (decide ((3:Int) > 1), decide ((1:Int) > 3), decide ((3:Int) = 1)) ∧
      (processGame initAggState gameC2).totalGames = initAggState.totalGames + 1 :=
  ⟨rfl, rfl, (outcome_precedence gameC2 initAggState).1 3 1 rfl rfl⟩

/-- C10: every record constructed by `handleSave` carries either both
scores (score known) or a winner designator (score unknown), never
neither, and is therefore counted by the statistics aggregator. -/
theorem handleSave_counted (parse : String → Int)
    (greenTeam orangeTeam attending : List Player)
    (weekDate greenScore orangeScore paymentType : String) (scoreUnknown : Bool)
    (winner : Winner) (r : GameRecord) (s : AggState)
    (h : handleSave parse greenTeam orangeTeam attending weekDate greenScore orangeScore
      paymentType scoreUnknown winner = some r) :
    (scoreUnknown = false →
      r.green_team_score.isSome ∧ r.orange_team_score.isSome ∧ r.winner = none) ∧
    (scoreUnknown = true →
      r.green_team_score = none ∧ r.orange_team_score = none ∧ r.winner = some winner) ∧
    ((r.green_team_score.isSome ∧ r.orange_team_score.isSome) ∨ r.winner.isSome) ∧
    (outcome (toGameLog r)).isSome ∧
    (processGame s (toGameLog r)).totalGames = s.totalGames + 1 := by
  rw [handleSave] at h
  split_ifs at h with h1 h2 h3
  · injection h with hr
    subst hr
    simp [toGameLog, outcome, processGame, h3]
  · injection h with hr
    subst hr
    have h4 : scoreUnknown = false := by simpa using h3
    subst h4
    simp [toGameLog, outcome, processGame]

/-- Witness for C10 at a concrete saved record with known score 0–0. -/
theorem handleSave_counted_witness :
    (outcome (toGameLog ⟨"2025-12-01", ["Gia"], ["Oli"], some 0, some 0, ["Gia", "Oli"],
        ["Gia"], "everyone_pays", none⟩)).isSome ∧
    (processGame initAggState (toGameLog ⟨"2025-12-01", ["Gia"], ["Oli"], some 0, some 0,
        ["Gia", "Oli"], ["Gia"], "everyone_pays", none⟩)).totalGames =
      initAggState.totalGames + 1 := by
  have h := handleSave_counted (fun _ => 0) [playerC10G] [playerC10O] [playerC10G, playerC10O]
    "2025-12-01" "3" "1" "everyone_pays" false Winner.green
    ⟨"2025-12-01", ["Gia"], ["Oli"], some 0, some 0, ["Gia", "Oli"], ["Gia"],
      "everyone_pays", none⟩ initAggState (by decide)
  exact ⟨h.2.2.2.1, h.2.2.2.2⟩

theorem findStats_bump (m : List (String × PlayerRec)) (n : String) (w : Bool) (x : String) :
    findStats (bumpPlayer m n w) x =
      if n = x then
        some
          (match findStats m x with
          | none => ⟨if w then 1 else 0, 1⟩
          | some r => ⟨r.wins + (if w then 1 else 0), r.gamesPlayed + 1⟩)
      else findStats m x := by
  induction m with
  | nil => simp [bumpPlayer, findStats]
  | cons e rest ih =>
    obtain ⟨k, r⟩ := e
    by_cases hk : k = n
    · subst hk
      by_cases hx : k = x
      · subst hx
        simp [bumpPlayer, findStats]
      · simp [bumpPlayer, findStats, hx]
    · by_cases hx : k = x
      · subst hx
        simp [bumpPlayer, findStats, hk, Ne.symm hk]
      · simp [bumpPlayer, findStats, hk, hx, ih]

theorem statG_bump (m : List (String × PlayerRec)) (n : String) (w : Bool) (x : String) :
    statG (bumpPlayer m n w) x = statG m x + (if n = x then 1 else 0) := by
  by_cases h : n = x
  · cases hf : findStats m x <;> simp [statG, findStats_bump, h, hf]
  · simp [statG, findStats_bump, h]

theorem statW_bump (m : List (String × PlayerRec)) (n : String) (w : Bool) (x : String) :
    statW (bumpPlayer m n w) x = statW m x + (if n = x ∧ w = true then 1 else 0) := by
  by_cases h : n = x
  · cases hf : findStats m x <;> cases w <;> simp [statW, findStats_bump, h, hf]
  · simp [statW, findStats_bump, h]

theorem findStats_bump_isSome (m : List (String × PlayerRec)) (n : String) (w : Bool)
    (x : String) :
    (findStats (bumpPlayer m n w) x).isSome = ((findStats m x).isSome || decide (n = x)) := by
  by_cases h : n = x
  · cases hf : findStats m x <;> simp [findStats_bump, h, hf]
  · simp [findStats_bump, h]

theorem statG_fold (ps : List String) (w : Bool) (m : List (String × PlayerRec)) (x : String) :
    statG (ps.foldl (fun acc p => bumpPlayer acc p w) m) x = statG m x + ps.count x := by
  induction ps generalizing m with
  | nil => simp
  | cons p rest ih =>
    rw [List.foldl_cons, ih, statG_bump, List.count_cons]
    by_cases h : p = x <;> (simp [h]; try omega)

theorem statW_fold (ps : List String) (w : Bool) (m : List (String × PlayerRec)) (x : String) :
    statW (ps.foldl (fun acc p => bumpPlayer acc p w) m) x =
      statW m x + (if w then ps.count x else 0) := by
  induction ps generalizing m with
  | nil => simp
  | cons p rest ih =>
    rw [List.foldl_cons, ih, statW_bump, List.count_cons]
    by_cases h : p = x <;> cases w <;> (simp [h]; try omega)

theorem findStats_fold_isSome (ps : List String) (w : Bool) (m : List (String × PlayerRec))
    (x : String) :
    (findStats (ps.foldl (fun acc p => bumpPlayer acc p w) m) x).isSome =
      ((findStats m x).isSome || decide (x ∈ ps)) := by
  induction ps generalizing m with
  | nil => simp
  | cons p rest ih =>
    rw [List.foldl_cons, ih, findStats_bump_isSome, Bool.or_assoc]
    congr 1
    by_cases h2 : p = x
    · simp [h2, List.mem_cons]
    · have h3 : ¬x = p := fun hx => h2 hx.symm
      by_cases h : x ∈ rest <;> simp [h, h2, h3, List.mem_cons]

theorem statG_process (s : AggState) (g : GameLog) (x : String) :
    statG (processGame s g).playerWins x = statG s.playerWins x + gpContribution g x := by
  cases ho : outcome g with
  | none => simp [processGame, ho, gpContribution]
  | some t =>
    obtain ⟨gw, ow, dr⟩ := t
    simp [processGame, ho, statG_fold, gpContribution, rosterHits]
    omega

theorem statW_process (s : AggState) (g : GameLog) (x : String) :
    statW (processGame s g).playerWins x = statW s.playerWins x + winContribution g x := by
  cases ho : outcome g with
  | none => simp [processGame, ho, winContribution]
  | some t =>
    obtain ⟨gw, ow, dr⟩ := t
    simp [processGame, ho, statW_fold, winContribution]
    omega

theorem findStats_process_isSome (s : AggState) (g : GameLog) (x : String) :
    (findStats (processGame s g).playerWins x).isSome =
      ((findStats s.playerWins x).isSome || memContribution g x) := by
  cases ho : outcome g with
  | none => simp [processGame, ho, memContribution]
  | some t =>
    obtain ⟨gw, ow, dr⟩ := t
    simp [processGame, ho, findStats_fold_isSome, memContribution, Bool.or_assoc]

theorem statG_foldl (games : List GameLog) (s : AggState) (x : String) :
    statG ((games.foldl processGame s).playerWins) x =
      statG s.playerWins x + gamesPlayedSpec games x := by
  induction games generalizing s with
  | nil => simp [gamesPlayedSpec]
  | cons g rest ih =>
    rw [List.foldl_cons, ih, statG_process]
    simp [gamesPlayedSpec]
    omega

theorem statW_foldl (games : List GameLog) (s : AggState) (x : String) :
    statW ((games.foldl processGame s).playerWins) x =
      statW s.playerWins x + winsSpec games x := by
  induction games generalizing s with
  | nil => simp [winsSpec]
  | cons g rest ih =>
    rw [List.foldl_cons, ih, statW_process]
    simp [winsSpec]
    omega

theorem findStats_foldl_isSome (games : List GameLog) (s : AggState) (x : String) :
    (findStats ((games.foldl processGame s).playerWins) x).isSome =
      ((findStats s.playerWins x).isSome || games.any fun g => memContribution g x) := by
  induction games generalizing s with
  | nil => simp
  | cons g rest ih =>
    rw [List.foldl_cons, ih, findStats_process_isSome]
    simp [Bool.or_assoc, Bool.or_comm, Bool.or_left_comm]

theorem statG_aggregate (games : List GameLog) (x : String) :
    statG (aggregate games).playerWins x = gamesPlayedSpec games x := by
  have h := statG_foldl games initAggState x
  simpa [aggregate, initAggState, statG, findStats] using h

theorem statW_aggregate (games : List GameLog) (x : String) :
    statW (aggregate games).playerWins x = winsSpec games x := by
  have h := statW_foldl games initAggState x
  simpa [aggregate, initAggState, statW, findStats] using h

theorem findStats_aggregate_isSome (games : List GameLog) (x : String) :
    (findStats (aggregate games).playerWins x).isSome =
      (games.any fun g => memContribution g x) := by
  have h := findStats_foldl_isSome games initAggState x
  simpa [aggregate, initAggState, findStats] using h

theorem memContribution_iff (g : GameLog) (x : String) :
    memContribution g x = true ↔ gpContribution g x ≠ 0 := by
  unfold memContribution gpContribution rosterHits
  cases ho : outcome g with
  | none => simp
  | some t =>
    simp only [Bool.or_eq_true, decide_eq_true_eq]
    rw [← List.count_pos_iff (a := x) (l := g.green_team_players),
      ← List.count_pos_iff (a := x) (l := g.orange_team_players)]
    omega

theorem gamesPlayedSpec_ne_zero (games : List GameLog) (x : String) :
    gamesPlayedSpec games x ≠ 0 ↔ (games.any fun g => memContribution g x) = true := by
  induction games with
  | nil => simp [gamesPlayedSpec]
  | cons g rest ih =>
    simp only [gamesPlayedSpec, List.map_cons, List.sum_cons, List.any_cons,
      Bool.or_eq_true] at ih ⊢
    rw [memContribution_iff, ← ih]
    omega

theorem processGame_counters (s : AggState) (g : GameLog) :
    (processGame s g).greenWins = s.greenWins + (if greenFlag g then 1 else 0) ∧
    (processGame s g).orangeWins = s.orangeWins + (if orangeFlag g then 1 else 0) ∧
    (processGame s g).draws = s.draws + (if drawFlag g then 1 else 0) ∧
    (processGame s g).totalGames = s.totalGames + (if countFlag g then 1 else 0) := by
  cases ho : outcome g with
  | none => simp [processGame, ho, greenFlag, orangeFlag, drawFlag, countFlag]
  | some t =>
    obtain ⟨gw, ow, dr⟩ := t
    simp [processGame, ho, greenFlag, orangeFlag, drawFlag, countFlag]

theorem counters_foldl (games : List GameLog) (s : AggState) :
    (games.foldl processGame s).greenWins = s.greenWins + greenWonGames games ∧
    (games.foldl processGame s).orangeWins = s.orangeWins + orangeWonGames games ∧
    (games.foldl processGame s).draws = s.draws + drawGames games ∧
    (games.foldl processGame s).totalGames = s.totalGames + countedGames games := by
  induction games generalizing s with
  | nil => simp [greenWonGames, orangeWonGames, drawGames, countedGames]
  | cons g rest ih =>
    obtain ⟨i1, i2, i3, i4⟩ := ih (processGame s g)
    obtain ⟨p1, p2, p3, p4⟩ := processGame_counters s g
    rw [List.foldl_cons]
    refine ⟨?_, ?_, ?_, ?_⟩ <;>
      simp only [i1, i2, i3, i4, p1, p2, p3, p4, greenWonGames, orangeWonGames,
        drawGames, countedGames, List.countP_cons] <;> split_ifs <;> omega

theorem outcome_exclusive (g : GameLog) (gw ow dr : Bool)
    (h : outcome g = some (gw, ow, dr)) :
    (if gw then 1 else 0) + (if ow then 1 else 0) + (if dr then 1 else 0) = 1 := by
  unfold outcome at h
  rcases hg : g.green_team_score with _ | gs <;> rcases ho2 : g.orange_team_score with _ | os <;>
    rw [hg, ho2] at h
  · rcases hw : g.winner with _ | w <;> rw [hw] at h
    · exact absurd h (by simp)
    · simp only [Option.some.injEq, Prod.mk.injEq] at h
      obtain ⟨rfl, rfl, rfl⟩ := h
      cases w <;> simp
  · rcases hw : g.winner with _ | w <;> rw [hw] at h
    · exact absurd h (by simp)
    · simp only [Option.some.injEq, Prod.mk.injEq] at h
      obtain ⟨rfl, rfl, rfl⟩ := h
      cases w <;> simp
  · rcases hw : g.winner with _ | w <;> rw [hw] at h
    · exact absurd h (by simp)
    · simp only [Option.some.injEq, Prod.mk.injEq] at h
      obtain ⟨rfl, rfl, rfl⟩ := h
      cases w <;> simp
  · simp only [Option.some.injEq, Prod.mk.injEq] at h
    obtain ⟨rfl, rfl, rfl⟩ := h
    rcases lt_trichotomy gs os with hlt | heq | hgt
    · simp [show ¬gs > os by omega, show os > gs by omega, show ¬gs = os by omega]
    · simp [show ¬gs > os by omega, show ¬os > gs by omega, heq]
    · simp [show gs > os by omega, show ¬os > gs by omega, show ¬gs = os by omega]

theorem flags_sum (g : GameLog) :
    (if greenFlag g then 1 else 0) + (if orangeFlag g then 1 else 0) +
      (if drawFlag g then 1 else 0) = (if countFlag g then 1 else 0) := by
  cases ho : outcome g with
  | none => simp [greenFlag, orangeFlag, drawFlag, countFlag, ho]
  | some t =>
    obtain ⟨gw, ow, dr⟩ := t
    simp only [greenFlag, orangeFlag, drawFlag, countFlag, ho, Option.isSome_some, if_true]
    exact outcome_exclusive g gw ow dr ho

theorem counted_split (games : List GameLog) :
    greenWonGames games + orangeWonGames games + drawGames games = countedGames games := by
  induction games with
  | nil => simp [greenWonGames, orangeWonGames, drawGames, countedGames]
  | cons g rest ih =>
    have hf := flags_sum g
    simp only [greenWonGames, orangeWonGames, drawGames, countedGames,
      List.countP_cons] at ih ⊢
    split_ifs at hf ⊢ <;> omega

/-- C3 (amended): the aggregator gives each name a gamesPlayed equal to
its roster listings over counted records and a wins count equal to its
listings on winning rosters over counted records — both with multiplicity
of roster listings — and each counted record increments exactly the
matching per-team counter (their counts partition the counted total). -/
theorem player_counts (games : List GameLog) (x : String) :
    findStats (aggregate games).playerWins x =
      (if gamesPlayedSpec games x = 0 then none
       else some ⟨winsSpec games x, gamesPlayedSpec games x⟩) ∧
    (aggregate games).greenWins = greenWonGames games ∧
    (aggregate games).orangeWins = orangeWonGames games ∧
    (aggregate games).draws = drawGames games ∧
    (aggregate games).totalGames = countedGames games ∧
    greenWonGames games + orangeWonGames games + drawGames games = countedGames games := by
  have hcnt := counters_foldl games initAggState
  refine ⟨?_, ?_, ?_, ?_, ?_, counted_split games⟩
  · have hW := statW_aggregate games x
    have hG := statG_aggregate games x
    have hS := findStats_aggregate_isSome games x
    by_cases h0 : gamesPlayedSpec games x = 0
    · rw [if_pos h0]
      cases hf : findStats (aggregate games).playerWins x with
      | none => rfl
      | some r =>
        rw [hf] at hS
        exact absurd ((gamesPlayedSpec_ne_zero games x).mpr hS.symm) (by simp [h0])
    · rw [if_neg h0]
      cases hf : findStats (aggregate games).playerWins x with
      | none =>
        rw [hf] at hS
        exact absurd ((gamesPlayedSpec_ne_zero games x).mp h0) (by simp [← hS])
      | some r =>
        simp only [statW, hf] at hW
        simp only [statG, hf] at hG
        rw [← hW, ← hG]
  · simpa [aggregate, initAggState] using hcnt.1
  · simpa [aggregate, initAggState] using hcnt.2.1
  · simpa [aggregate, initAggState] using hcnt.2.2.1
  · simpa [aggregate, initAggState] using hcnt.2.2.2

theorem bump_good (m : List (String × PlayerRec)) (n : String) (w : Bool)
    (h : ∀ e ∈ m, goodRec e.2) : ∀ e ∈ bumpPlayer m n w, goodRec e.2 := by
  induction m with
  | nil =>
    intro e he
    simp [bumpPlayer] at he
    subst he
    cases w <;> simp [goodRec]
  | cons a rest ih =>
    obtain ⟨k, r⟩ := a
    intro e he
    by_cases hk : k = n
    · rw [bumpPlayer, if_pos hk] at he
      rcases List.mem_cons.mp he with he | he
      · subst he
        have hr : goodRec r := h (k, r) (List.mem_cons_self _ _)
        obtain ⟨h1, h2⟩ := hr
        refine ⟨?_, ?_⟩
        · show 1 ≤ r.gamesPlayed + 1
          omega
        · show r.wins + (if w = true then 1 else 0) ≤ r.gamesPlayed + 1
          split_ifs <;> omega
      · exact h e (List.mem_cons_of_mem _ he)
    · rw [bumpPlayer, if_neg hk] at he
      rcases List.mem_cons.mp he with he | he
      · subst he
        exact h (k, r) (List.mem_cons_self _ _)
      · exact ih (fun e2 he2 => h e2 (List.mem_cons_of_mem _ he2)) e he

theorem fold_good (ps : List String) (w : Bool) (m : List (String × PlayerRec))
    (h : ∀ e ∈ m, goodRec e.2) :
    ∀ e ∈ ps.foldl (fun acc p => bumpPlayer acc p w) m, goodRec e.2 := by
  induction ps generalizing m with
  | nil => simpa using h
  | cons p rest ih => exact ih _ (bump_good _ _ _ h)

theorem aggregate_good (games : List GameLog) :
    ∀ e ∈ (aggregate games).playerWins, goodRec e.2 := by
  suffices h : ∀ s : AggState, (∀ e ∈ s.playerWins, goodRec e.2) →
      ∀ e ∈ (games.foldl processGame s).playerWins, goodRec e.2 by
    exact h initAggState (by simp [initAggState])
  induction games with
  | nil => intro s hs; simpa using hs
  | cons g rest ih =>
    intro s hs
    rw [List.foldl_cons]
    apply ih
    cases ho : outcome g with
    | none => simpa [processGame, ho] using hs
    | some t =>
      obtain ⟨gw, ow, dr⟩ := t
      simp only [processGame, ho]
      exact fold_good _ _ _ (fold_good _ _ _ hs)

theorem entriesJS_perm (m : List (String × PlayerRec)) : (entriesJS m).Perm m := by
  unfold entriesJS
  exact ((List.mergeSort_perm _ _).append_right _).trans (List.filter_append_perm _ m)

theorem mem_leaderboard_iff (games : List GameLog) (e : PlayerStats) :
    e ∈ leaderboard games ↔ ∃ p ∈ (aggregate games).playerWins, toStats p = e := by
  unfold leaderboard baseStats
  rw [(List.mergeSort_perm _ _).mem_iff]
  simp only [List.mem_map]
  constructor
  · rintro ⟨p, hp, rfl⟩
    exact ⟨p, (entriesJS_perm _).mem_iff.mp hp, rfl⟩
  · rintro ⟨p, hp, rfl⟩
    exact ⟨p, (entriesJS_perm _).mem_iff.mpr hp, rfl⟩

/-- C9: every leaderboard entry has gamesPlayed at least 1 and wins at
most gamesPlayed, so the gamesPlayed = 0 fallback of the winRate
derivation is unreachable and the division is never by zero. -/
theorem leaderboard_entry_bounds (games : List GameLog) (e : PlayerStats)
    (he : e ∈ leaderboard games) :
    1 ≤ e.gamesPlayed ∧ e.wins ≤ e.gamesPlayed := by
  obtain ⟨p, hp, rfl⟩ := (mem_leaderboard_iff games e).mp he
  have hg := aggregate_good games p hp
  simpa [toStats, goodRec] using hg

/-- C5 (amended): every leaderboard entry's winRate is
(wins / gamesPlayed) * 100 and lies in [0, 100]. -/
theorem winRate_formula (games : List GameLog) (e : PlayerStats)
    (he : e ∈ leaderboard games) :
    e.winRate = ((e.wins : ℚ) / (e.gamesPlayed : ℚ)) * 100 ∧
      0 ≤ e.winRate ∧ e.winRate ≤ 100 := by
  obtain ⟨p, hp, rfl⟩ := (mem_leaderboard_iff games e).mp he
  obtain ⟨h1, h2⟩ := aggregate_good games p hp
  have hgp : (0:ℚ) < (p.2.gamesPlayed : ℚ) := by
    exact_mod_cast Nat.lt_of_lt_of_le Nat.zero_lt_one h1
  refine ⟨?_, ?_, ?_⟩
  · simp [toStats, if_pos (show 0 < p.2.gamesPlayed by omega)]
  · simp only [toStats, if_pos (show 0 < p.2.gamesPlayed by omega)]
    positivity
  · have hle : ((p.2.wins : ℚ) / (p.2.gamesPlayed : ℚ)) ≤ 1 :=
      (div_le_one hgp).mpr (by exact_mod_cast h2)
    have h100 : ((p.2.wins : ℚ) / (p.2.gamesPlayed : ℚ)) * 100 ≤ 1 * 100 :=
      mul_le_mul_of_nonneg_right hle (by norm_num)
    simp only [toStats, if_pos (show 0 < p.2.gamesPlayed by omega)]
    linarith

/-- Counterexample to C3 as stated: a counted 1–0 record listing Alice
twice on the winning roster gives Alice a wins count of 2, while the
number of counted records in which Alice is listed on the winning side is
1. -/
theorem player_counts_cex :
    (leaderboard [gameC3]).map PlayerStats.name = ["Alice", "Bob"] ∧
    (leaderboard [gameC3]).map PlayerStats.wins = [2, 0] ∧
    winsByRecord [gameC3] "Alice" = 1 ∧ (2 : Nat) ≠ 1 := by
  have hlb : leaderboard [gameC3] = [⟨"Alice", 2, 2, 100⟩, ⟨"Bob", 0, 1, 0⟩] := by
    simp [leaderboard, baseStats, aggregate, initAggState, processGame, outcome, gameC3,
      bumpPlayer, entriesJS, isArrayIndexName, toStats, statsLE, List.mergeSort, List.merge]
  refine ⟨by rw [hlb]; rfl, by rw [hlb]; rfl, by decide, by decide⟩

/-- Counterexample to C5 as stated: after one 1–0 record the first
leaderboard entry has wins = 1, gamesPlayed = 1 but winRate = 100, which
is neither wins divided by gamesPlayed (= 1) nor inside [0, 1] — the code
stores the percentage (wins / gamesPlayed) * 100. -/
theorem winRate_formula_cex :
    (leaderboard [gameC5]).map PlayerStats.winRate = [100, 0] ∧
    (leaderboard [gameC5]).map PlayerStats.wins = [1, 0] ∧
    (leaderboard [gameC5]).map PlayerStats.gamesPlayed = [1, 1] ∧
    ¬((100 : ℚ) ≤ 1) ∧ (100 : ℚ) ≠ (1 : ℚ) / (1 : ℚ) := by
  have hlb : leaderboard [gameC5] = [⟨"Ann", 1, 1, 100⟩, ⟨"Ben", 0, 1, 0⟩] := by
    simp [leaderboard, baseStats, aggregate, initAggState, processGame, outcome, gameC5,
      bumpPlayer, entriesJS, isArrayIndexName, toStats, statsLE, List.mergeSort, List.merge]
  refine ⟨by rw [hlb]; rfl, by rw [hlb]; rfl, by rw [hlb]; rfl, by norm_num, by norm_num⟩

/-- Witness for the amended C5 at a one-record history. -/
theorem winRate_formula_witness :
    (⟨"Gil", 1, 1, 100⟩ : PlayerStats) ∈ leaderboard [gameC5W] ∧
    ((⟨"Gil", 1, 1, 100⟩ : PlayerStats).winRate =
        (((⟨"Gil", 1, 1, 100⟩ : PlayerStats).wins : ℚ) /
          ((⟨"Gil", 1, 1, 100⟩ : PlayerStats).gamesPlayed : ℚ)) * 100 ∧
      0 ≤ (⟨"Gil", 1, 1, 100⟩ : PlayerStats).winRate ∧
      (⟨"Gil", 1, 1, 100⟩ : PlayerStats).winRate ≤ 100) := by
  have hm : (⟨"Gil", 1, 1, 100⟩ : PlayerStats) ∈ leaderboard [gameC5W] := by
    have hlb : leaderboard [gameC5W] = [⟨"Gil", 1, 1, 100⟩] := by
      simp [leaderboard, baseStats, aggregate, initAggState, processGame, outcome, gameC5W,
        bumpPlayer, entriesJS, isArrayIndexName, toStats, statsLE, List.mergeSort, List.merge]
    rw [hlb]
    exact List.mem_singleton.mpr rfl
  exact ⟨hm, winRate_formula [gameC5W] _ hm⟩

/-- Witness for C9 at a one-record history whose single player lost. -/
theorem leaderboard_entry_bounds_witness :
    (⟨"Hec", 0, 1, 0⟩ : PlayerStats) ∈ leaderboard [gameC9] ∧
      1 ≤ (⟨"Hec", 0, 1, 0⟩ : PlayerStats).gamesPlayed ∧
      (⟨"Hec", 0, 1, 0⟩ : PlayerStats).wins ≤ (⟨"Hec", 0, 1, 0⟩ : PlayerStats).gamesPlayed := by
  have hm : (⟨"Hec", 0, 1, 0⟩ : PlayerStats) ∈ leaderboard [gameC9] := by
    have hlb : leaderboard [gameC9] = [⟨"Hec", 0, 1, 0⟩] := by
      simp [leaderboard, baseStats, aggregate, initAggState, processGame, outcome, gameC9,
        bumpPlayer, entriesJS, isArrayIndexName, toStats, statsLE, List.mergeSort, List.merge]
    rw [hlb]
    exact List.mem_singleton.mpr rfl
  exact ⟨hm, leaderboard_entry_bounds [gameC9] _ hm⟩

theorem statsLE_iff (a b : PlayerStats) : statsLE a b = true ↔ rankLE a b := by
  unfold statsLE rankLE
  split_ifs with h1 h2
  · simp only [decide_eq_true_eq]
    constructor
    · exact fun h => Or.inl h
    · rintro (h | ⟨he, -⟩)
      · exact h
      · exact absurd he h1
  · rw [not_ne_iff] at h1
    simp only [decide_eq_true_eq]
    constructor
    · exact fun h => Or.inr ⟨h1, Or.inl h⟩
    · rintro (h | ⟨-, h | ⟨hr, -⟩⟩)
      · omega
      · exact h
      · exact absurd hr h2
  · rw [not_ne_iff] at h1 h2
    simp only [decide_eq_true_eq]
    constructor
    · exact fun h => Or.inr ⟨h1, Or.inr ⟨h2, h⟩⟩
    · rintro (h | ⟨-, h | ⟨-, h⟩⟩)
      · omega
      · exact absurd h2 (ne_of_lt h)
      · exact h

theorem statsLE_total (a b : PlayerStats) : (statsLE a b || statsLE b a) = true := by
  rw [Bool.or_eq_true, statsLE_iff, statsLE_iff]
  rcases Nat.lt_trichotomy b.wins a.wins with h | h | h
  · exact Or.inl (Or.inl h)
  · rcases lt_trichotomy b.winRate a.winRate with h2 | h2 | h2
    · exact Or.inl (Or.inr ⟨h, Or.inl h2⟩)
    · rcases Nat.le_total b.gamesPlayed a.gamesPlayed with h3 | h3
      · exact Or.inl (Or.inr ⟨h, Or.inr ⟨h2, h3⟩⟩)
      · exact Or.inr (Or.inr ⟨h.symm, Or.inr ⟨h2.symm, h3⟩⟩)
    · exact Or.inr (Or.inr ⟨h.symm, Or.inl h2⟩)
  · exact Or.inr (Or.inl h)

theorem statsLE_trans (a b c : PlayerStats) (hab : statsLE a b = true)
    (hbc : statsLE b c = true) : statsLE a c = true := by
  rw [statsLE_iff] at hab hbc ⊢
  rcases hab with h1 | ⟨e1, h1⟩
  · rcases hbc with h2 | ⟨e2, h2⟩
    · exact Or.inl (by omega)
    · exact Or.inl (by omega)
  · rcases hbc with h2 | ⟨e2, h2⟩
    · exact Or.inl (by omega)
    · refine Or.inr ⟨by omega, ?_⟩
      rcases h1 with hr1 | ⟨er1, hg1⟩
      · rcases h2 with hr2 | ⟨er2, hg2⟩
        · exact Or.inl (lt_trans hr2 hr1)
        · exact Or.inl (lt_of_eq_of_lt er2 hr1)
      · rcases h2 with hr2 | ⟨er2, hg2⟩
        · exact Or.inl (lt_of_lt_of_eq hr2 er1)
        · exact Or.inr ⟨er2.trans er1, le_trans hg2 hg1⟩

theorem leaderboard_sorted (games : List GameLog) :
    List.Pairwise rankLE (leaderboard games) := by
  have h := List.sorted_mergeSort statsLE_trans statsLE_total (baseStats games)
  exact h.imp fun hab => (statsLE_iff _ _).mp hab

theorem leaderboard_stable (games : List GameLog) (w : Nat) (r : ℚ) (gp : Nat) :
    (leaderboard games).filter (sameKeys w r gp) =
      (baseStats games).filter (sameKeys w r gp) := by
  have hpw : ((baseStats games).filter (sameKeys w r gp)).Pairwise
      (fun a b => statsLE a b = true) := by
    apply List.pairwise_of_forall_mem_list
    intro a ha b hb
    rw [List.mem_filter] at ha hb
    obtain ⟨-, ha⟩ := ha
    obtain ⟨-, hb⟩ := hb
    simp only [sameKeys, Bool.and_eq_true, decide_eq_true_eq] at ha hb
    obtain ⟨⟨ha1, ha2⟩, ha3⟩ := ha
    obtain ⟨⟨hb1, hb2⟩, hb3⟩ := hb
    rw [statsLE_iff]
    exact Or.inr ⟨hb1.trans ha1.symm, Or.inr ⟨hb2.trans ha2.symm, by omega⟩⟩
  have hsub : ((baseStats games).filter (sameKeys w r gp)).Sublist
      ((baseStats games).mergeSort statsLE) :=
    List.sublist_mergeSort statsLE_trans statsLE_total hpw (List.filter_sublist _)
  have hsub2 : ((baseStats games).filter (sameKeys w r gp)).Sublist
      (((baseStats games).mergeSort statsLE).filter (sameKeys w r gp)) := by
    have h3 := hsub.filter (sameKeys w r gp)
    rwa [List.filter_filter, (by
      funext s
      rw [Bool.and_self] : (fun s => sameKeys w r gp s && sameKeys w r gp s) =
        sameKeys w r gp)] at h3
  have hlen : (((baseStats games).mergeSort statsLE).filter (sameKeys w r gp)).length =
      ((baseStats games).filter (sameKeys w r gp)).length :=
    ((List.mergeSort_perm (baseStats games) statsLE).filter _).length_eq
  exact (hsub2.eq_of_length hlen.symm).symm

theorem keys_bump (m : List (String × PlayerRec)) (n : String) (w : Bool) :
    (bumpPlayer m n w).map Prod.fst = addName (m.map Prod.fst) n := by
  induction m with
  | nil => simp [bumpPlayer, addName]
  | cons e rest ih =>
    obtain ⟨k, r⟩ := e
    by_cases hk : k = n
    · subst hk
      simp [bumpPlayer, addName]
    · rw [bumpPlayer, if_neg hk]
      simp only [List.map_cons, ih, addName]
      have hne : ¬n = k := fun h => hk h.symm
      by_cases hm : n ∈ rest.map Prod.fst <;>
        simp [hm, hne, List.mem_cons]

theorem keys_fold (ps : List String) (w : Bool) (m : List (String × PlayerRec)) :
    (ps.foldl (fun acc p => bumpPlayer acc p w) m).map Prod.fst =
      ps.foldl addName (m.map Prod.fst) := by
  induction ps generalizing m with
  | nil => rfl
  | cons p rest ih => rw [List.foldl_cons, List.foldl_cons, ih, keys_bump]

theorem keys_process (s : AggState) (g : GameLog) :
    (processGame s g).playerWins.map Prod.fst =
      (match outcome g with
      | none => s.playerWins.map Prod.fst
      | some _ =>
        (g.green_team_players ++ g.orange_team_players).foldl addName
          (s.playerWins.map Prod.fst)) := by
  cases ho : outcome g with
  | none => simp [processGame, ho]
  | some t =>
    obtain ⟨gw, ow, dr⟩ := t
    simp [processGame, ho, keys_fold, List.foldl_append]

theorem keys_foldl (games : List GameLog) (s : AggState) :
    (games.foldl processGame s).playerWins.map Prod.fst =
      games.foldl
        (fun ns g =>
          match outcome g with
          | none => ns
          | some _ => (g.green_team_players ++ g.orange_team_players).foldl addName ns)
        (s.playerWins.map Prod.fst) := by
  induction games generalizing s with
  | nil => rfl
  | cons g rest ih =>
    rw [List.foldl_cons, List.foldl_cons, ih, keys_process]

/-- C4 (amended): the leaderboard is sorted descending by wins, then
winRate, then gamesPlayed; entries tying on all three keys keep the
relative order of the pre-sort entries array (the sort is stable); and the
accumulator's key-insertion order is exactly the first-encounter order of
the names.  The pre-sort entries array itself, however, is the
`Object.entries` enumeration, which places names that are canonical array
indices (decimal strings below 2^32 - 1) first in ascending numeric
order, ahead of the remaining names in first-encounter order; for such
names the tie order is therefore numeric, not encounter order (see the
counterexample). -/
theorem ranking_order (games : List GameLog) :
    List.Pairwise rankLE (leaderboard games) ∧
    (∀ w r gp, (leaderboard games).filter (sameKeys w r gp) =
      (baseStats games).filter (sameKeys w r gp)) ∧
    (aggregate games).playerWins.map Prod.fst = encounterOrder games := by
  refine ⟨leaderboard_sorted games, fun w r gp => leaderboard_stable games w r gp, ?_⟩
  have h := keys_foldl games initAggState
  simpa [aggregate, initAggState, encounterOrder] using h

/-- Counterexample to C4 as stated: one counted record whose winning
roster is ["2", "1"] produces two entries tying on all three keys, yet the
leaderboard lists "1" before "2" (numeric array-index enumeration of the
accumulator object), while the first-encounter order is "2" before "1". -/
theorem ranking_order_cex : ¬ encounterOrderClaim [gameC4] := by
  intro h
  unfold encounterOrderClaim at h
  have hlb : leaderboard [gameC4] = [⟨"1", 1, 1, 100⟩, ⟨"2", 1, 1, 100⟩] := by
    simp [leaderboard, baseStats, aggregate, initAggState, processGame, outcome, gameC4,
      bumpPlayer, entriesJS, isArrayIndexName, digitsVal, toStats, statsLE,
      List.mergeSort, List.merge]
  have henc : encounterOrder [gameC4] = ["2", "1"] := by decide
  rw [hlb, henc] at h
  have h12 := (List.pairwise_cons.mp h).1 ⟨"2", 1, 1, 100⟩ (List.mem_singleton.mpr rfl)
    ⟨rfl, rfl, rfl⟩
  revert h12
  decide
